import Mathlib

/-!
Verification development for the WealthMind conversational-analysis backend.

Shallow embedding of the merge/dedup/rank pipeline (`backend/graph/graph.py`),
the router fallback (`backend/graph/router.py`), the cross-referral machinery
(`backend/graph/synthesizer.py`, `backend/api/routes.py`), the what-if delta
comparison (`backend/api/routes.py`), the trade-intercept fan-out
(`backend/services/interception.py`) and the SSE chat stream generator
(`backend/api/routes.py`).  Python dicts are embedded as association lists in
insertion order, Python numbers as `Rat`, fallible external calls as
`Except String`-valued outcomes, and the streaming generator as a state monad
accumulating the emitted events.
-/

namespace WealthMind

/-! ### Python string helpers

`str.lower` / `str.strip` as used on finding titles (`graph.py` line 68).
Titles are ASCII in this codebase; `pyLowerChar` is Python `str.lower`
restricted to ASCII letters, and `pyStrip` removes leading and trailing
whitespace like Python `str.strip()`. -/

def pyLowerChar (c : Char) : Char :=
  if 'A' ≤ c && c ≤ 'Z' then Char.ofNat (c.toNat + 32) else c

def pyLower (s : String) : String :=
  String.mk (s.data.map pyLowerChar)

def isPySpace (c : Char) : Bool :=
  c = ' ' || c = '\t' || c = '\n' || c = '\r' || c = '\x0b' || c = '\x0c'

def pyStrip (s : String) : String :=
  String.mk (((s.data.dropWhile isPySpace).reverse.dropWhile isPySpace).reverse)

/-! ### Data model: Findings

A Finding is a JSON object produced by a capability.  We embed only the
fields the core reads.  `Option` marks a possibly-missing key; the
`dollar_impact` value may be present but non-numeric (`PyNum.nonnum`).
`domain` is the tag written by `synthesis_node` (`graph.py` line 61) and
`sourceTag` embeds the `_source` tag written by the advisor/proactive merges
(`advisor.py` line 96, `proactive.py` line 92). -/

inductive PyNum where
  | num (q : Rat)
  | nonnum
deriving DecidableEq, Repr

structure Finding where
  title : Option String := none
  dollar_impact : Option PyNum := none
  impact_direction : Option String := none
  urgency : Option String := none
  reasoning : Option String := none
  confidence : Option String := none
  what_to_do : Option String := none
  domain : Option String := none
  sourceTag : Option String := none
deriving DecidableEq, Repr

/-- Embeds `_is_valid_finding` (`graph.py` lines 28-31): all seven required keys
present and `dollar_impact` an `int`/`float`. -/
def is_valid_finding (f : Finding) : Bool :=
  f.title.isSome && f.dollar_impact.isSome && f.impact_direction.isSome &&
  f.urgency.isSome && f.reasoning.isSome && f.confidence.isSome &&
  f.what_to_do.isSome &&
  (match f.dollar_impact with
   | some (.num _) => true
   | _ => false)

/-- Dedup key: `f["title"].lower().strip()` (`graph.py` line 68).  The
`getD ""` default is unreachable at its use sites: the title key is always
present there because the finding passed `_is_valid_finding`. -/
def titleKey (f : Finding) : String :=
  pyStrip (pyLower (f.title.getD ""))

/-- Numeric value of `dollar_impact`.  Embeds both `f["dollar_impact"]`
(`graph.py` line 74, reached only on validated findings, where the key is
present and numeric) and `float(f.get("dollar_impact", 0))` (`advisor.py`
line 99, `proactive.py` line 101, missing key defaulting to 0). -/
def findingImpact (f : Finding) : Rat :=
  match f.dollar_impact with
  | some (.num q) => q
  | _ => 0

/-- Embeds `f["domain"] = domain` (`graph.py` line 61). -/
def setDomain (d : String) (f : Finding) : Finding :=
  { f with domain := some d }

/-- Embeds `f["_source"] = label` (`advisor.py` line 96, `proactive.py` line 92). -/
def setSource (lab : String) (f : Finding) : Finding :=
  { f with sourceTag := some lab }

/-! ### Stable descending sort

Python `sorted(..., key=..., reverse=True)` and `list.sort(key=...,
reverse=True)` are stable: among elements with equal keys the original
order is kept.  `List.insertionSort` with the relation
`fun a b => key b ≤ key a` has exactly this semantics: an element is
inserted before the first element whose key is not larger. -/

def sortDescBy {α : Type} (key : α → Rat) (l : List α) : List α :=
  l.insertionSort (fun a b => key b ≤ key a)

/-! ### The Finding Validator/Ranker: `synthesis_node` (`graph.py` 51-76)

The `domain_findings` dict is embedded as an association list in insertion
order (Python dicts preserve insertion order). -/

/-- Inner loop of `synthesis_node` (lines 57-62): keep the valid findings of
one domain, tagging each with the domain, in order. -/
def collectValid (d : String) : List Finding → List Finding
  | [] => []
  | f :: fs =>
    if is_valid_finding f then setDomain d f :: collectValid d fs
    else collectValid d fs

/-- Outer loop of `synthesis_node` (lines 56-62): flatten all domains in
merge order, dropping invalid findings. -/
def flattenValid : List (String × List Finding) → List Finding
  | [] => []
  | (d, fs) :: rest => collectValid d fs ++ flattenValid rest

/-- Dedup loop of `synthesis_node` (lines 65-71): first occurrence of a
normalized title wins; `seen_titles` is embedded as the list of keys seen
so far. -/
def dedupLoop (seen : List String) : List Finding → List Finding
  | [] => []
  | f :: fs =>
    if seen.contains (titleKey f) then dedupLoop seen fs
    else f :: dedupLoop (titleKey f :: seen) fs

/-- Embeds `synthesis_node` (`graph.py` lines 51-76): flatten + validate, dedup by
normalized title, stable-sort by `dollar_impact` descending. -/
def synthesis_node (domain_findings : List (String × List Finding)) : List Finding :=
  sortDescBy findingImpact (dedupLoop [] (flattenValid domain_findings))

/-! ### Reference pipeline, from the specification's words (§4.1)

Used only to compare against `synthesis_node`: (1) flatten in merge order;
(2) drop invalid findings; (3) deduplicate by title normalized to
lower-case and trimmed, first occurrence in merge order wins; (4)
stable-sort by `dollar_impact` descending. -/

def specFlatten (dfs : List (String × List Finding)) : List Finding :=
  dfs.flatMap (fun p => p.2.map (setDomain p.1))

/-- First-occurrence-wins dedup by normalized title, as the spec words it. -/
def dedupByTitle : List Finding → List Finding
  | [] => []
  | f :: fs => f :: dedupByTitle (fs.filter (fun g => titleKey g != titleKey f))
termination_by l => l.length
decreasing_by
  simp only [List.length_cons]
  exact Nat.lt_succ_of_le (List.length_filter_le _ _)

def specPipeline (dfs : List (String × List Finding)) : List Finding :=
  sortDescBy findingImpact (dedupByTitle ((specFlatten dfs).filter is_valid_finding))

/-- The list-level core of the Validator/Ranker: validate, dedup, rank one
already-flattened sequence of findings (the body of `synthesis_node` after
flattening). -/
def mergeRank (l : List Finding) : List Finding :=
  sortDescBy findingImpact (dedupLoop [] (l.filter is_valid_finding))

/-! ### Router (`backend/graph/router.py`)

The LLM call, the code-fence stripping and `json.loads` all sit inside the
`try` block (lines 63-79); any exception there is caught and answered by
the fail-open fallback (lines 80-87).  We embed the try-block's outcome as
an `Except`: `.ok` carries the parsed routing decision, `.error` any raised
exception. -/

/-- Embeds `_ALL_AGENTS` (`router.py` line 16). -/
def ALL_AGENTS : List String :=
  ["allocation", "tax_implications", "tlh", "rate_arbitrage", "timing"]

/-- The routing dict as consumed by `routes.py`.  `needs_web_search` and
`web_search_query` are read with `.get` defaults `False` / `""`
(`routes.py` lines 701-702); the fallback dict omits them, which those
defaults turn into `false` / `none`. -/
structure RoutingDecision where
  agents_to_invoke : List String := []
  routing_reasoning : String := ""
  can_answer_from_context : Bool := false
  direct_response : Option String := none
  needs_web_search : Bool := false
  web_search_query : Option String := none
deriving DecidableEq, Repr

/-- Fail-open fallback (`router.py` lines 82-87). -/
def routerFallback : RoutingDecision :=
  { agents_to_invoke := ALL_AGENTS
    routing_reasoning := "fallback: router error, invoking all agents"
    can_answer_from_context := false
    direct_response := none }

/-- Embeds `conversation_router` (`router.py` lines 23-87): return the parsed
decision, or the fail-open fallback when anything in the try block raised. -/
def conversation_router (callResult : Except String RoutingDecision) : RoutingDecision :=
  match callResult with
  | .ok r => r
  | .error _ => routerFallback

/-! ### JSON values and Python truthiness

Needed for the cross-referral evaluation (`synthesizer.py` lines 164-206),
whose answer is an arbitrary parsed JSON value. -/

inductive Json where
  | obj (fields : List (String × Json))
  | arr (elems : List Json)
  | str (s : String)
  | num (q : Rat)
  | bool (b : Bool)
  | null

/-- Embeds `dict.get`: first binding wins (parsed JSON objects have unique keys). -/
def lookupField : List (String × Json) → String → Option Json
  | [], _ => none
  | (k, v) :: rest, key => if k = key then some v else lookupField rest key

/-- Python truthiness of a JSON value. -/
def pyTruthy : Json → Bool
  | .obj fields => !fields.isEmpty
  | .arr elems => !elems.isEmpty
  | .str s => s != ""
  | .num q => q != 0
  | .bool b => b
  | .null => false

/-- The fallback object `{"refer": False, "reason": ""}` (`synthesizer.py` lines 203 and 206). -/
def referFallback : Json :=
  .obj [("refer", .bool false), ("reason", .str "")]

/-- Embeds `evaluate_cross_referral` (`synthesizer.py` lines 164-206).  The LLM
call, fence stripping and `json.loads` are inside the `try`; `.error` is
any exception raised there (including a timeout), `.ok` the parsed value.
The parsed value is returned as-is only when it is a dict containing a
`refer` key; otherwise, and on any exception, the fail-closed fallback is
returned. -/
def evaluate_cross_referral (callResult : Except String Json) : Json :=
  match callResult with
  | .ok (.obj fields) =>
    if (lookupField fields "refer").isSome then .obj fields else referFallback
  | .ok _ => referFallback
  | .error _ => referFallback

/-- Outcomes on which the claim requires fail-closed behaviour: an
exception/timeout, or an answer that is not a JSON object with a `refer`
field. -/
def malformedReferOutcome : Except String Json → Bool
  | .error _ => true
  | .ok (.obj fields) => (lookupField fields "refer").isNone
  | .ok _ => true

/-- Embeds the `result.get("refer")` truthiness as used at `synthesizer.py` line 241. -/
def referTruthy (v : Json) : Bool :=
  match v with
  | .obj fields =>
    match lookupField fields "refer" with
    | some x => pyTruthy x
    | none => false
  | _ => false

/-- Embeds `result.get("reason", "")` (`synthesizer.py` line 239). -/
def reasonField (v : Json) : Json :=
  match v with
  | .obj fields => (lookupField fields "reason").getD (.str "")
  | _ => .str ""

/-! ### Cross-referral candidates (`synthesizer.py` lines 209-243) -/

/-- Embeds `CROSS_REFERRAL_MAP` (`synthesizer.py` lines 146-153). -/
def CROSS_REFERRAL_MAP : List (String × List String) :=
  [("allocation", ["timing", "rate_arbitrage"]),
   ("tax_implications", ["tlh", "timing"]),
   ("tlh", ["tax_implications", "timing"]),
   ("rate_arbitrage", ["allocation"]),
   ("timing", ["allocation", "tax_implications"]),
   ("direct_response", ["allocation", "tax_implications", "tlh", "rate_arbitrage", "timing"])]

/-- Embeds `dict.get(k, [])` on an association list. -/
def adjGet (m : List (String × List String)) (k : String) : List String :=
  match m with
  | [] => []
  | (k', v) :: rest => if k' = k then v else adjGet rest k

/-- Embeds `set.add`: CPython set iteration order is unspecified; we model the
candidate set as a duplicate-free list in insertion order.  Every property
proved about it is order-independent. -/
def insertUniq (x : String) (xs : List String) : List String :=
  if xs.contains x then xs else xs ++ [x]

/-- Candidate-set construction (`synthesizer.py` lines 222-226): adjacency
images of all primary agents, minus agents already invoked this turn. -/
def buildCandidates (primary_agents turn_agents_invoked : List String) : List String :=
  primary_agents.foldl
    (fun acc agent =>
      (adjGet CROSS_REFERRAL_MAP agent).foldl
        (fun acc2 c => if turn_agents_invoked.contains c then acc2 else insertUniq c acc2)
        acc)
    []

/-- One accepted referral: `{"agent": ..., "reason": ...}`. -/
structure Referral where
  agent : String
  reason : Json

/-- Embeds `get_cross_referral_candidates` (`synthesizer.py` lines 209-243).
`refEval` is the per-candidate outcome of the concurrently gathered
evaluation calls; each is passed through `evaluate_cross_referral`.  The
accepted candidates are truncated to `max_referrals`. -/
def get_cross_referral_candidates (primary_agents turn_agents_invoked : List String)
    (refEval : String → Except String Json) (max_referrals : Nat) : List Referral :=
  let candidates := buildCandidates primary_agents turn_agents_invoked
  let referrals :=
    (candidates.filter (fun c => referTruthy (evaluate_cross_referral (refEval c)))).map
      (fun c => ⟨c, reasonField (evaluate_cross_referral (refEval c))⟩)
  referrals.take max_referrals

/-! ### The SSE chat stream (`routes.py` lines 685-915)

The `generate()` generator is embedded in a monad `M`: state is the list of
events emitted so far, and the result is `Except String α` — `.error`
models an exception propagating to the generator's top-level `except`
handler (lines 911-913).  Every external await is an oracle of type
`Except String _`; an inner `try` block is embedded by matching on the
oracle instead of calling it. -/

inductive Event where
  | routingEv (agents : List String) (canAnswer : Bool) (needsWeb : Bool)
  | webSearchStart (query : String)
  | webSearchComplete (resultCount : Nat) (failed : Bool)
  | agentStart (agent : String)
  | handoff (agent : String)
  | agentComplete (agent : String) (findingCount : Nat) (failed : Bool)
  | response (text : String)
  | sources
  | autoReferralResponse (agent : String) (text : String)
  | followUps (chips : List String)
  | done (sessionId : String)
  | error (msg : String)

def isErrorEv : Event → Bool
  | .error _ => true
  | _ => false

/-- Terminal protocol events: `done` and `error`. -/
def isTermEv : Event → Bool
  | .done _ => true
  | .error _ => true
  | _ => false

def M (α : Type) : Type :=
  List Event → Except String α × List Event

instance : Monad M where
  pure a := fun s => (.ok a, s)
  bind x f := fun s =>
    match x s with
    | (.ok a, s') => f a s'
    | (.error e, s') => (.error e, s')

/-- Emits one event, as a `yield` does. -/
def emit (e : Event) : M Unit :=
  fun s => (.ok (), s ++ [e])

/-- An `await` on an external call that may raise. -/
def call {α : Type} (o : Except String α) : M α :=
  fun s => (o, s)

/-- Keys of `_CHAT_AGENT_MAP` (`routes.py` lines 466-472). -/
def CHAT_AGENT_KEYS : List String :=
  ["allocation", "tax_implications", "tlh", "rate_arbitrage", "timing"]

/-- One web search result; only the fields the stream logic reads. -/
structure SearchResult where
  url : String
  title : String
deriving DecidableEq, Repr

/-- URL dedup of combined search results (`routes.py` lines 727-731): keep a
result when its URL is unseen and its title truthy. -/
def dedupByUrl (seen : List String) : List SearchResult → List SearchResult
  | [] => []
  | r :: rest =>
    if !seen.contains r.url && r.title != "" then
      r :: dedupByUrl (r.url :: seen) rest
    else dedupByUrl seen rest

/-- Chain-protection bookkeeping of one turn (`routes.py` lines 687-689):
`invoked` is `turn_agents_invoked`, `count` is `auto_referral_count`, and
`executed` records each agent the referral loop actually called. -/
structure TurnRefState where
  invoked : List String
  count : Nat
  executed : List String

/-- All external-call outcomes of one chat turn.  Agent invocations and
referral evaluations are keyed by agent name. -/
structure Oracles where
  sessionId : String
  portfolioOutcome : Except String Unit
  routerPre : Except String Unit
  routerLLM : Except String RoutingDecision
  webOutcome : Except String (List SearchResult)
  agentOutcome : String → Except String Nat
  refEval : String → Except String Json
  synthDirect : Except String String
  synthSearchOnly : Except String String
  synthPrimary : Except String String
  synthReferral : String → Except String String
  chipsOutcome : Except String (List String)
  saveOutcome : Except String Unit

/-- The auto-referral loop (`routes.py` lines 776-803 and 872-899).  Per
referral: budget check, already-invoked check, `handoff` and `agent_start`
events, then a `try` covering the agent call and the re-synthesis — an
agent failure yields an error-tagged `agent_complete` and leaves
`turn_agents_invoked` and `auto_referral_count` untouched; a synthesis
failure happens after both were updated. -/
def referralLoopM (maxR : Nat) (agentOutcome : String → Except String Nat)
    (synthReferral : String → Except String String) :
    List Referral → TurnRefState → M TurnRefState
  | [], st => pure st
  | r :: rs, st =>
    if st.count ≥ maxR then pure st
    else if st.invoked.contains r.agent then
      referralLoopM maxR agentOutcome synthReferral rs st
    else do
      emit (.handoff r.agent)
      emit (.agentStart r.agent)
      match agentOutcome r.agent with
      | .error _ => do
        emit (.agentComplete r.agent 0 true)
        referralLoopM maxR agentOutcome synthReferral rs
          { st with executed := st.executed ++ [r.agent] }
      | .ok n => do
        emit (.agentComplete r.agent n false)
        let st' : TurnRefState :=
          { invoked := st.invoked ++ [r.agent]
            count := st.count + 1
            executed := st.executed ++ [r.agent] }
        match synthReferral r.agent with
        | .error _ => do
          emit (.agentComplete r.agent 0 true)
          referralLoopM maxR agentOutcome synthReferral rs st'
        | .ok t => do
          emit (.autoReferralResponse r.agent t)
          referralLoopM maxR agentOutcome synthReferral rs st'

/-- Embeds `MAX_AUTO_REFERRALS` (`routes.py` line 689). -/
def MAX_AUTO_REFERRALS : Nat := 1

/-- Web-search block (`routes.py` lines 717-742): its own `try` catches any
failure and reports it in the `web_search_complete` event, so it never
raises to the turn level. -/
def webSegment (routing : RoutingDecision) (webOutcome : Except String (List SearchResult)) :
    M (List SearchResult) :=
  if routing.needs_web_search && (routing.web_search_query.getD "") != "" then do
    emit (.webSearchStart (routing.web_search_query.getD ""))
    match webOutcome with
    | .ok rs =>
      let results := (dedupByUrl [] rs).take 5
      do
        emit (.webSearchComplete results.length false)
        pure results
    | .error _ => do
      emit (.webSearchComplete 0 true)
      pure []
  else pure []

/-- Emits the `agent_start` and `handoff` events of the primary dispatch
(`routes.py` lines 814-824). -/
def emitStartHandoffs : List String → M Unit
  | [] => pure ()
  | d :: rest => do
    emit (.agentStart d)
    emit (.handoff d)
    emitStartHandoffs rest

/-- Per-agent completion events after the gathered primary dispatch
(`routes.py` lines 835-850): a raised agent is reported with an
error-tagged `agent_complete` and does not abort the turn. -/
def emitAgentCompletes (agentOutcome : String → Except String Nat) : List String → M Unit
  | [] => pure ()
  | d :: rest => do
    (match agentOutcome d with
     | .error _ => emit (.agentComplete d 0 true)
     | .ok n => emit (.agentComplete d n false))
    emitAgentCompletes agentOutcome rest

/-- Embeds `if search_results: yield sources` (`routes.py` lines 761-762 and
859-860). -/
def emitSourcesIf (searchResults : List SearchResult) : M Unit :=
  if !searchResults.isEmpty then emit .sources else pure ()

/-- Choice of the direct response text (`routes.py` lines 746-759): plain
direct response, or a synthesis call when web results are present (which
may raise — it sits outside any inner `try`). -/
def directSynth (o : Oracles) (searchResults : List SearchResult)
    (direct0 : String) : M String :=
  if !searchResults.isEmpty && direct0 != "" then call o.synthDirect
  else if !searchResults.isEmpty then call o.synthSearchOnly
  else pure direct0

/-- Direct branch (`routes.py` lines 745-809): direct or search-augmented
response, `sources`, the universal cross-referral pass seeded with the
`direct_response` sentinel, follow-up chips, `done`, then persistence. -/
def directBranch (o : Oracles) (routing : RoutingDecision)
    (searchResults : List SearchResult) : M Unit := do
  let direct0 := routing.direct_response.getD ""
  let direct ← directSynth o searchResults direct0
  emit (.response direct)
  emitSourcesIf searchResults
  let referrals :=
    get_cross_referral_candidates ["direct_response"] ["direct_response"]
      o.refEval MAX_AUTO_REFERRALS
  let _ ← referralLoopM MAX_AUTO_REFERRALS o.agentOutcome o.synthReferral referrals
    ⟨["direct_response"], 0, []⟩
  let chips ← call o.chipsOutcome
  emit (.followUps chips)
  emit (.done o.sessionId)
  let _ ← call o.saveOutcome
  pure ()

/-- Agentic branch (`routes.py` lines 811-909): primary dispatch events,
gathered agent calls, synthesis, `sources`, cross-referral pass, follow-up
chips, persistence, then `done`. -/
def agenticBranch (o : Oracles) (routing : RoutingDecision)
    (searchResults : List SearchResult) : M Unit := do
  let valid_agents := routing.agents_to_invoke.filter (fun d => CHAT_AGENT_KEYS.contains d)
  emitStartHandoffs valid_agents
  emitAgentCompletes o.agentOutcome valid_agents
  let t ← call o.synthPrimary
  emit (.response t)
  emitSourcesIf searchResults
  let referrals :=
    get_cross_referral_candidates valid_agents valid_agents o.refEval MAX_AUTO_REFERRALS
  let _ ← referralLoopM MAX_AUTO_REFERRALS o.agentOutcome o.synthReferral referrals
    ⟨valid_agents, 0, []⟩
  let chips ← call o.chipsOutcome
  emit (.followUps chips)
  let _ ← call o.saveOutcome
  emit (.done o.sessionId)

/-- Body of `generate()` (`routes.py` lines 691-909), up to the top-level
exception handler. -/
def chatBody (o : Oracles) : M Unit := do
  let _ ← call o.portfolioOutcome
  let _ ← call o.routerPre
  let routing := conversation_router o.routerLLM
  emit (.routingEv routing.agents_to_invoke routing.can_answer_from_context
    routing.needs_web_search)
  let searchResults ← webSegment routing o.webOutcome
  if routing.can_answer_from_context || routing.agents_to_invoke.isEmpty then
    directBranch o routing searchResults
  else
    agenticBranch o routing searchResults

/-- The full event stream of one chat turn: run the generator body; an
exception reaching the top-level handler appends a single `error` event
(`routes.py` lines 911-913). -/
def chatStream (o : Oracles) : List Event :=
  match chatBody o [] with
  | (.ok _, evs) => evs
  | (.error m, evs) => evs ++ [.error m]

/-! ### What-if delta comparison (`routes.py` lines 997-1032) -/

/-- A finding as read by the what-if delta: `f["title"]` (present, used as
dict key) and `f.get("dollar_impact", 0)` (may be missing). -/
structure WFinding where
  title : String
  dollar_impact : Option Rat
deriving DecidableEq, Repr

/-- Embeds `{f["title"]: f for f in fs}[t]`: the last finding with that title
wins, as in a Python dict comprehension. -/
def lastWithTitle (fs : List WFinding) (t : String) : Option WFinding :=
  (fs.filter (fun f => f.title = t)).getLast?

/-- Embeds `float((x or empty-dict).get("dollar_impact", 0))` (`routes.py` 1007-1008):
a missing finding or a missing key defaults to 0. -/
def impactOf : Option WFinding → Rat
  | none => 0
  | some f => f.dollar_impact.getD 0

/-- Python `round` to an integer: round half to even. -/
def pyRound (q : Rat) : Int :=
  let f := q.floor
  let r := q - f
  if r < 1/2 then f
  else if 1/2 < r then f + 1
  else if f % 2 = 0 then f else f + 1

/-- Python `round(q, digits)` (modelled exactly on rationals). -/
def roundTo (digits : Nat) (q : Rat) : Rat :=
  ((pyRound (q * ((10 ^ digits : Nat) : Rat)) : Int) : Rat) / ((10 ^ digits : Nat) : Rat)

structure DeltaEntry where
  title : String
  baseline_dollar_impact : Rat
  modified_dollar_impact : Rat
  delta_dollar_impact : Rat
  delta_pct : Rat
  direction : String
  present_in : String
deriving DecidableEq, Repr

/-- Per-title body of the loop in `_compute_whatif_delta`
(`routes.py` lines 1004-1030). -/
def deltaEntryFor (b m : Option WFinding) (title : String) : DeltaEntry :=
  let b_impact := impactOf b
  let m_impact := impactOf m
  let delta_impact := m_impact - b_impact
  { title := title
    baseline_dollar_impact := roundTo 2 b_impact
    modified_dollar_impact := roundTo 2 m_impact
    delta_dollar_impact := roundTo 2 delta_impact
    delta_pct := roundTo 1 (if b_impact = 0 then 0 else delta_impact / b_impact * 100)
    direction :=
      if |delta_impact| < 1/100 then "unchanged"
      else if delta_impact > 0 then "improved"
      else "worsened"
    present_in :=
      if b.isSome && m.isSome then "both"
      else if m.isSome then "modified_only"
      else "baseline_only" }

/-- First-occurrence dedup of a string list.  Models the iteration over the
Python set `set(b_by_title) | set(m_by_title)`, whose order is unspecified;
all properties proved of the delta are independent of this order. -/
def dedupStrAux (seen : List String) : List String → List String
  | [] => []
  | s :: rest =>
    if seen.contains s then dedupStrAux seen rest
    else s :: dedupStrAux (s :: seen) rest

def dedupStr (l : List String) : List String := dedupStrAux [] l

/-- Embeds `_compute_whatif_delta` (`routes.py` lines 997-1032): per-title deltas,
sorted by absolute rounded delta descending (Python `sorted` is stable). -/
def compute_whatif_delta (baseline modified : List WFinding) : List DeltaEntry :=
  sortDescBy (fun d => |d.delta_dollar_impact|)
    ((dedupStr (baseline.map (fun f => f.title) ++ modified.map (fun f => f.title))).map
      (fun t => deltaEntryFor (lastWithTitle baseline t) (lastWithTitle modified t) t))

/-! ### Merge paths outside the chat graph (claim C2)

Each gathered agent call yields `Except String (List (String × List
Finding))`: `.ok` carries the agent's `domain_findings` dict, `.error` an
exception collected by `return_exceptions=True`. -/

/-- Flatten of `generate_advisor_report` (`advisor.py` lines 88-97) and of
`generate_proactive_greeting` (`proactive.py` lines 80-97): per-agent, skip
exceptions, tag every finding with `_source`, extend in order.  No validity
filter and no deduplication. -/
def flattenWithSource
    (results : List (String × Except String (List (String × List Finding)))) : List Finding :=
  results.flatMap (fun p =>
    match p.2 with
    | .error _ => []
    | .ok dfs => dfs.flatMap (fun q => q.2.map (setSource p.1)))

/-- Advisor merge (`advisor.py` lines 88-99): flatten, then
`all_findings.sort(key=..., reverse=True)` (stable). -/
def advisorMerge
    (results : List (String × Except String (List (String × List Finding)))) : List Finding :=
  sortDescBy findingImpact (flattenWithSource results)

/-- Proactive-greeting merge (`proactive.py` lines 80-103): same flatten
and stable sort, then `[:3]`. -/
def proactiveTopFindings
    (results : List (String × Except String (List (String × List Finding)))) : List Finding :=
  (sortDescBy findingImpact (flattenWithSource results)).take 3

/-- Embeds `_collect` of the what-if route (`routes.py` lines 1077-1083): flatten
only — no validation, no dedup, no sort. -/
def whatifCollect
    (results : List (Except String (List (String × List Finding)))) : List Finding :=
  results.flatMap (fun r =>
    match r with
    | .error _ => []
    | .ok dfs => dfs.flatMap (fun q => q.2))

/-- Python `dict[k] = v`: replace in place if the key exists, else append. -/
def dictSet (d : List (String × List Finding)) (k : String) (v : List Finding) :
    List (String × List Finding) :=
  if d.any (fun p => p.1 = k) then d.map (fun p => if p.1 = k then (k, v) else p)
  else d ++ [(k, v)]

/-- Python `dict.update`. -/
def dictUpdate (d upd : List (String × List Finding)) : List (String × List Finding) :=
  upd.foldl (fun acc p => dictSet acc p.1 p.2) d

/-- The `merged.update(result.get("domain_findings", {}))` merge of
capability results into one `domain_findings` dict (`graph.py` lines
44-46), skipping raised results: the map the Finding Validator/Ranker
would be fed for the same capability outputs. -/
def mergeResults (results : List (Except String (List (String × List Finding)))) :
    List (String × List Finding) :=
  results.foldl
    (fun acc r =>
      match r with
      | .error _ => acc
      | .ok dfs => dictUpdate acc dfs)
    []

/-! ### Concurrent fan-outs and snapshot/state sharing (claim C4)

Python object identity is modelled by an allocation counter: constructing
a state dict (`_make_chat_state` / `_make_state` / `_build_state`) yields a
fresh token.  A fan-out is described by the list of state tokens its
sub-calls receive. -/

/-- Allocate one fresh state object. -/
def allocState (n : Nat) : Nat × Nat := (n, n + 1)

/-- Chat, proactive, advisor and what-if fan-outs evaluate the state
constructor once per sub-call (`routes.py` lines 827-833 and 1066-1075,
`proactive.py` lines 71-78, `advisor.py` lines 79-86). -/
def perCallFanout (agents : List String) (n : Nat) : List Nat × Nat :=
  match agents with
  | [] => ([], n)
  | _ :: rest =>
    let (s, n1) := allocState n
    let (ss, n2) := perCallFanout rest n1
    (s :: ss, n2)

/-- Records that `intercept_trade` builds one state (`interception.py` line 188) and
passes the same object to every gathered agent (lines 195-198). -/
def interceptFanout (agents : List String) (n : Nat) : List Nat × Nat :=
  let (s, n1) := allocState n
  (agents.map (fun _ => s), n1)

/-- Python `str.upper` restricted to ASCII, as used on tickers. -/
def pyUpperChar (c : Char) : Char :=
  if 'a' ≤ c && c ≤ 'z' then Char.ofNat (c.toNat - 32) else c

def pyUpper (s : String) : String :=
  String.mk (s.data.map pyUpperChar)

structure TradePosition where
  ticker : String
  unrealized_gain_loss_cad : Rat
deriving DecidableEq, Repr

structure TradeAccount where
  id : Nat
  account_type : String
  positions : List TradePosition
deriving DecidableEq, Repr

structure TradePortfolio where
  accounts : List TradeAccount
deriving DecidableEq, Repr

/-- Keys of `_AGENT_MAP` (`interception.py` lines 30-35). -/
def INTERCEPT_AGENT_KEYS : List String :=
  ["tax_implications", "tlh", "allocation", "rate_arbitrage"]

/-- Embeds `_select_agents` (`interception.py` lines 119-152). -/
def select_agents (portfolio : TradePortfolio) (account_id : Nat) (ticker : String)
    (action : String) : List String :=
  let agents := ["tax_implications"]
  match portfolio.accounts.find? (fun a => a.id = account_id) with
  | none => agents
  | some target =>
    let agents := agents ++
      (if action = "sell" then
        let pos := target.positions.find? (fun p => pyUpper p.ticker = pyUpper ticker)
        let has_gain :=
          match pos with
          | some p => decide (p.unrealized_gain_loss_cad > 0)
          | none => false
        let any_losses :=
          portfolio.accounts.any (fun a =>
            a.positions.any (fun p => decide (p.unrealized_gain_loss_cad < 0)))
        if has_gain && any_losses then ["tlh"] else []
      else [])
    let agents := agents ++
      (if target.account_type = "rrsp" || target.account_type = "tfsa" ||
          target.account_type = "fhsa" then ["allocation"] else [])
    agents ++ (if action = "buy" then ["rate_arbitrage"] else [])

/-- The state dict contents relevant to mutation: `domain_findings`
(`_build_state`, `interception.py` lines 155-163, starts it empty). -/
structure GraphStateV where
  domain_findings : List (String × List Finding)
deriving DecidableEq, Repr

/-- The shared state built once by `intercept_trade` (`interception.py`
line 188): `domain_findings` starts empty. -/
def build_state : GraphStateV := ⟨[]⟩

/-- State handling of `_call_agent` (`agents.py` lines 61-63): the
`state.get("domain_findings") or` empty-dict idiom allocates a fresh dict
when the state's dict is empty (falsy) — only then is the state object
left unmodified; a non-empty dict is aliased, so writing
`current[domain_key]` mutates the state.  Returns the (possibly) updated
state and the `domain_findings` dict of the result. -/
def call_agent_state (domain_key : String) (findings : List Finding) (st : GraphStateV) :
    GraphStateV × List (String × List Finding) :=
  if st.domain_findings.isEmpty then
    (st, dictSet [] domain_key findings)
  else
    let d := dictSet st.domain_findings domain_key findings
    (⟨d⟩, d)

/-- Sequentialized effect of the intercept fan-out on its single shared
state: every sub-call reads and possibly mutates the same object (asyncio
interleaves the sub-calls on one thread, so their state effects compose
sequentially in some order; the fold covers any order via the agent
list). -/
def interceptSharedRun (agentFindings : String → List Finding)
    (domainKeyOf : String → String) (agents : List String) (st : GraphStateV) : GraphStateV :=
  agents.foldl (fun acc a => (call_agent_state (domainKeyOf a) (agentFindings a) acc).1) st

/-! ### Proof-support definitions for the stream theorems -/

/-- Fragment predicate: `m` only appends events, none of them terminal (`done`/`error`). -/
def NTFrag {α : Type} (m : M α) : Prop :=
  ∀ s, ∃ ext, (m s).2 = s ++ ext ∧ ext.all (fun e => !isTermEv e) = true

/-- Tail predicate: `m` only appends events, none of them `error`, and when it returns
normally the last appended event is `d`. -/
def GoodTail (d : Event) {α : Type} (m : M α) : Prop :=
  ∀ s, ∃ ext, (m s).2 = s ++ ext ∧ ext.all (fun e => !isErrorEv e) = true ∧
    ((m s).1.isOk = true → ext.getLast? = some d)

def isTermOpt : Option Event → Bool
  | some e => isTermEv e
  | none => false

/-- A fully-populated valid finding used as a concrete test vector. -/
def exValid (t : String) (q : Rat) : Finding :=
  { title := some t
    dollar_impact := some (.num q)
    impact_direction := some "save"
    urgency := some "immediate"
    reasoning := some "r"
    confidence := some "high"
    what_to_do := some "w" }

/-- Concrete portfolio test vector: one TFSA account holding one position. -/
def ctPortfolio : TradePortfolio :=
  ⟨[⟨1, "tfsa", [⟨"AAPL", 10⟩]⟩]⟩

/-- Tag-insensitive view of a finding: its identity fields `title` and
`dollar_impact` (the `domain`/`_source` tags differ by construction across
the merge paths and are not part of the claims' comparison). -/
def findingProj (f : Finding) : Option String × Option PyNum :=
  (f.title, f.dollar_impact)

/-- Computes `findingImpact` through the projection. -/
def projImpact (p : Option String × Option PyNum) : Rat :=
  match p.2 with
  | some (.num q) => q
  | _ => 0

/-- Concrete capability output: one agent returning two valid findings with
the same title and different impacts. -/
def ctResults : List (String × Except String (List (String × List Finding))) :=
  [("allocation", .ok [("allocation", [exValid "a" 10, exValid "a" 20])])]

/-! ## Theorems -/

theorem is_valid_setDomain (d : String) (f : Finding) :
    is_valid_finding (setDomain d f) = is_valid_finding f := rfl

theorem titleKey_setDomain (d : String) (f : Finding) :
    titleKey (setDomain d f) = titleKey f := rfl

theorem findingImpact_setDomain (d : String) (f : Finding) :
    findingImpact (setDomain d f) = findingImpact f := rfl

theorem is_valid_setSource (lab : String) (f : Finding) :
    is_valid_finding (setSource lab f) = is_valid_finding f := rfl

theorem findingImpact_setSource (lab : String) (f : Finding) :
    findingImpact (setSource lab f) = findingImpact f := rfl

theorem collectValid_eq (d : String) (fs : List Finding) :
    collectValid d fs = (fs.map (setDomain d)).filter is_valid_finding := by
  induction fs with
  | nil => rfl
  | cons f fs ih =>
    by_cases h : is_valid_finding f = true
    · simp [collectValid, h, List.filter_cons, is_valid_setDomain, ih]
    · simp only [Bool.not_eq_true] at h
      simp [collectValid, h, List.filter_cons, is_valid_setDomain, ih]

theorem flattenValid_eq (dfs : List (String × List Finding)) :
    flattenValid dfs = (specFlatten dfs).filter is_valid_finding := by
  induction dfs with
  | nil => rfl
  | cons p rest ih =>
    simp [flattenValid, specFlatten, List.flatMap_cons, List.filter_append,
      collectValid_eq, ih]

theorem dedupLoop_eq (l : List Finding) (seen : List String) :
    dedupLoop seen l =
      dedupByTitle (l.filter (fun f => !seen.contains (titleKey f))) := by
  induction l generalizing seen with
  | nil => simp [dedupLoop, dedupByTitle]
  | cons f fs ih =>
    by_cases h : titleKey f ∈ seen
    · have hcont : seen.contains (titleKey f) = true := by simpa using h
      rw [dedupLoop, if_pos hcont, ih, List.filter_cons, if_neg (by simp [h])]
    · have hcont : seen.contains (titleKey f) = false := by simpa using h
      rw [dedupLoop, if_neg (by simp [h]), ih, List.filter_cons,
        if_pos (by simp [h]), dedupByTitle]
      refine congrArg (f :: ·) (congrArg dedupByTitle ?_)
      rw [List.filter_filter]
      apply List.filter_congr
      intro a _
      by_cases hk : titleKey a = titleKey f <;>
        simp [List.contains_cons, Bool.not_or, bne, hk]

theorem dedupLoop_eq_dedupByTitle (l : List Finding) :
    dedupLoop [] l = dedupByTitle l := by
  rw [dedupLoop_eq]
  congr 1
  apply List.filter_eq_self.mpr
  intro a _
  rfl

/-- C1: `synthesis_node`, applied to any `domain_findings` map, returns
exactly the reference pipeline result: flatten in merge order, drop
invalid findings, deduplicate by lower-cased trimmed title keeping the
first occurrence, stable-sort by `dollar_impact` descending. -/
theorem synthesis_node_matches_reference_pipeline (dfs : List (String × List Finding)) :
    synthesis_node dfs = specPipeline dfs := by
  unfold synthesis_node specPipeline
  rw [flattenValid_eq, dedupLoop_eq_dedupByTitle]

/-- C7: on any raised error, the router returns the fail-open default —
all five known capabilities, `can_answer_from_context = false`, no direct
response — and never propagates the error. -/
theorem conversation_router_fails_open (e : String) :
    conversation_router (.error e) = routerFallback ∧
    routerFallback.agents_to_invoke = ALL_AGENTS ∧
    ALL_AGENTS.length = 5 ∧
    routerFallback.can_answer_from_context = false ∧
    routerFallback.direct_response = none :=
  ⟨rfl, rfl, rfl, rfl, rfl⟩

/-- C8: the per-candidate cross-referral relevance check fails closed: if
the evaluation call raises or times out, or returns anything that is not a
JSON object with a `refer` field, the result is the fail-closed fallback,
whose `refer` field is `false`. -/
theorem evaluate_cross_referral_fails_closed (o : Except String Json)
    (h : malformedReferOutcome o = true) :
    evaluate_cross_referral o = referFallback ∧
    referTruthy (evaluate_cross_referral o) = false := by
  match o with
  | .error e => exact ⟨rfl, rfl⟩
  | .ok (.arr l) => exact ⟨rfl, rfl⟩
  | .ok (.str s) => exact ⟨rfl, rfl⟩
  | .ok (.num q) => exact ⟨rfl, rfl⟩
  | .ok (.bool b) => exact ⟨rfl, rfl⟩
  | .ok .null => exact ⟨rfl, rfl⟩
  | .ok (.obj fields) =>
    simp only [malformedReferOutcome, Option.isNone_iff_eq_none] at h
    constructor
    · simp [evaluate_cross_referral, h]
    · simp [evaluate_cross_referral, h, referTruthy, referFallback, lookupField, pyTruthy]

/-- Witness for C8 at a concrete malformed outcome (a JSON array). -/
theorem evaluate_cross_referral_fails_closed_witness :
    evaluate_cross_referral (.ok (.arr [])) = referFallback ∧
    referTruthy (evaluate_cross_referral (.ok (.arr []))) = false :=
  evaluate_cross_referral_fails_closed (.ok (.arr [])) rfl

theorem sortDescBy_perm {α : Type} (key : α → Rat) (l : List α) :
    List.Perm (sortDescBy key l) l :=
  List.perm_insertionSort _ l

theorem sortDescBy_sorted {α : Type} (key : α → Rat) (l : List α) :
    List.Sorted (fun a b => key b ≤ key a) (sortDescBy key l) := by
  haveI : IsTotal α (fun a b => key b ≤ key a) := ⟨fun a b => le_total (key b) (key a)⟩
  haveI : IsTrans α (fun a b => key b ≤ key a) := ⟨fun _ _ _ h1 h2 => le_trans h2 h1⟩
  exact List.sorted_insertionSort _ l

theorem sortDescBy_eq_self {α : Type} (key : α → Rat) (l : List α)
    (h : List.Sorted (fun a b => key b ≤ key a) l) : sortDescBy key l = l :=
  h.insertionSort_eq

theorem dedupByTitle_sublist (l : List Finding) :
    List.Sublist (dedupByTitle l) l := by
  induction l using dedupByTitle.induct with
  | case1 => simp [dedupByTitle]
  | case2 f fs ih =>
    rw [dedupByTitle]
    exact List.Sublist.cons₂ f (ih.trans (List.filter_sublist fs))

theorem mem_dedupByTitle {l : List Finding} {x : Finding} (hx : x ∈ dedupByTitle l) :
    x ∈ l :=
  (dedupByTitle_sublist l).subset hx

theorem dedupByTitle_pairwise (l : List Finding) :
    (dedupByTitle l).Pairwise (fun a b => titleKey a ≠ titleKey b) := by
  induction l using dedupByTitle.induct with
  | case1 => simp [dedupByTitle]
  | case2 f fs ih =>
    rw [dedupByTitle]
    refine List.Pairwise.cons ?_ ih
    intro b hb
    have hb' := List.of_mem_filter (mem_dedupByTitle hb)
    intro hk
    simp [bne, hk] at hb'

theorem dedupByTitle_eq_self (l : List Finding)
    (h : l.Pairwise (fun a b => titleKey a ≠ titleKey b)) : dedupByTitle l = l := by
  induction l using dedupByTitle.induct with
  | case1 => simp [dedupByTitle]
  | case2 f fs ih =>
    rw [dedupByTitle]
    have hfil : fs.filter (fun g => titleKey g != titleKey f) = fs := by
      apply List.filter_eq_self.mpr
      intro g hg
      have := (List.pairwise_cons.mp h).1 g hg
      simp [bne, this.symm]
    rw [hfil] at ih ⊢
    rw [ih (List.pairwise_cons.mp h).2]

theorem mergeRank_eq (l : List Finding) :
    mergeRank l = sortDescBy findingImpact (dedupByTitle (l.filter is_valid_finding)) := by
  rw [mergeRank, dedupLoop_eq_dedupByTitle]

theorem mem_mergeRank_valid {l : List Finding} {x : Finding} (hx : x ∈ mergeRank l) :
    is_valid_finding x = true := by
  rw [mergeRank_eq] at hx
  have h1 : x ∈ dedupByTitle (l.filter is_valid_finding) :=
    ((sortDescBy_perm _ _).mem_iff).mp hx
  exact List.of_mem_filter (mem_dedupByTitle h1)

/-- C5: the merge/rank core of the Finding Validator/Ranker is idempotent
— running it on its own output reproduces that output — and order-stable:
two findings with equal `dollar_impact` that survive validation and
deduplication appear in the output in their merge order. -/
theorem mergeRank_idempotent_and_stable :
    (∀ l : List Finding, mergeRank (mergeRank l) = mergeRank l) ∧
    (∀ (l : List Finding) (a b : Finding), findingImpact a = findingImpact b →
      List.Sublist [a, b] (dedupByTitle (l.filter is_valid_finding)) →
      List.Sublist [a, b] (mergeRank l)) := by
  constructor
  · intro l
    rw [mergeRank_eq (mergeRank l)]
    have hfil : (mergeRank l).filter is_valid_finding = mergeRank l :=
      List.filter_eq_self.mpr (fun a ha => mem_mergeRank_valid ha)
    rw [hfil]
    have hpair : (mergeRank l).Pairwise (fun a b => titleKey a ≠ titleKey b) := by
      rw [mergeRank_eq]
      exact ((sortDescBy_perm _ _).pairwise_iff (fun h => h.symm)).mpr
        (dedupByTitle_pairwise _)
    rw [dedupByTitle_eq_self _ hpair]
    exact sortDescBy_eq_self _ _ (by rw [mergeRank_eq]; exact sortDescBy_sorted _ _)
  · intro l a b hab hsub
    rw [mergeRank_eq]
    exact List.pair_sublist_insertionSort (le_of_eq (by rw [hab])) hsub

/-- Witness for C5's stability part: two equal-impact findings with
distinct titles keep their merge order. -/
theorem mergeRank_idempotent_and_stable_witness :
    List.Sublist [exValid "a" 5, exValid "b" 5]
      (mergeRank [exValid "a" 5, exValid "b" 5]) :=
  mergeRank_idempotent_and_stable.2 [exValid "a" 5, exValid "b" 5] _ _ rfl
    (by rw [← dedupLoop_eq_dedupByTitle]; decide)

theorem collectValid_filter (d : String) (fs : List Finding) :
    collectValid d (fs.filter is_valid_finding) = collectValid d fs := by
  induction fs with
  | nil => rfl
  | cons f fs ih =>
    by_cases h : is_valid_finding f = true
    · simp [List.filter_cons, collectValid, h, ih]
    · simp only [Bool.not_eq_true] at h
      simp [List.filter_cons, collectValid, h, ih]

/-- C6: every finding in the Validator/Ranker's output is valid — a
finding missing a required field or with a non-numeric `dollar_impact`
never appears — and dropping the invalid findings from the input leaves
the output unchanged (they are ignored, not errors: the embedding is a
total function). -/
theorem synthesis_node_drops_invalid (dfs : List (String × List Finding)) :
    ((synthesis_node dfs).all is_valid_finding = true) ∧
    synthesis_node (dfs.map (fun p => (p.1, p.2.filter is_valid_finding))) =
      synthesis_node dfs := by
  constructor
  · apply List.all_eq_true.mpr
    intro x hx
    rw [synthesis_node, dedupLoop_eq_dedupByTitle] at hx
    have h1 : x ∈ dedupByTitle (flattenValid dfs) :=
      ((sortDescBy_perm _ _).mem_iff).mp hx
    have h2 : x ∈ flattenValid dfs := mem_dedupByTitle h1
    rw [flattenValid_eq] at h2
    exact List.of_mem_filter h2
  · have : flattenValid (dfs.map (fun p => (p.1, p.2.filter is_valid_finding))) =
        flattenValid dfs := by
      induction dfs with
      | nil => rfl
      | cons p rest ih => simp [flattenValid, collectValid_filter, ih]
    rw [synthesis_node, synthesis_node, this]

theorem M_bind_apply {α β : Type} (x : M α) (f : α → M β) (s : List Event) :
    (x >>= f) s =
      match x s with
      | (.ok a, s') => f a s'
      | (.error e, s') => (.error e, s') := rfl

theorem M_pure_apply {α : Type} (a : α) (s : List Event) :
    (pure a : M α) s = (.ok a, s) := rfl

theorem M_emit_apply (e : Event) (s : List Event) :
    emit e s = (.ok (), s ++ [e]) := rfl

theorem M_call_apply {α : Type} (o : Except String α) (s : List Event) :
    call o s = (o, s) := rfl

/-- The referral loop always returns normally; the agents it executes are a
suffix of at most `rs.length` new agents, none of which was in the invoked
set at loop entry. -/
theorem referralLoopM_props (maxR : Nat) (ao : String → Except String Nat)
    (so : String → Except String String) (rs : List Referral) :
    ∀ (st : TurnRefState) (s : List Event),
    ∃ st' s', referralLoopM maxR ao so rs st s = (.ok st', s') ∧
      ∃ newEx, st'.executed = st.executed ++ newEx ∧
        newEx.length ≤ rs.length ∧
        newEx.all (fun a => !st.invoked.contains a) = true := by
  induction rs with
  | nil =>
    intro st s
    exact ⟨st, s, rfl, [], by simp, by simp, by simp⟩
  | cons r rs ih =>
    intro st s
    by_cases h1 : st.count ≥ maxR
    · refine ⟨st, s, ?_, [], by simp, by simp, by simp⟩
      rw [referralLoopM, if_pos h1, M_pure_apply]
    · cases hb : st.invoked.contains r.agent with
      | true =>
        obtain ⟨st', s', heq, newEx, hex, hlen, hall⟩ := ih st s
        refine ⟨st', s', ?_, newEx, hex, Nat.le_succ_of_le hlen, hall⟩
        rw [referralLoopM, if_neg h1, if_pos hb]
        exact heq
      | false =>
        have hbtrue : (!st.invoked.contains r.agent) = true := by simpa using hb
        cases hao : ao r.agent with
        | error err =>
          obtain ⟨st', s', heq, newEx, hex, hlen, hall⟩ :=
            ih { st with executed := st.executed ++ [r.agent] }
              (s ++ [.handoff r.agent] ++ [.agentStart r.agent] ++
                [.agentComplete r.agent 0 true])
          refine ⟨st', s', ?_, r.agent :: newEx, ?_, ?_, ?_⟩
          · rw [referralLoopM, if_neg h1, if_neg (by simpa using hb)]
            simp only [M_bind_apply, M_emit_apply, hao]
            exact heq
          · rw [hex]; simp
          · simpa using Nat.succ_le_succ hlen
          · rw [List.all_cons, hbtrue, Bool.true_and]
            exact hall
        | ok n =>
          have weaken : ∀ newEx : List String,
              newEx.all (fun a => !(st.invoked ++ [r.agent]).contains a) = true →
              newEx.all (fun a => !st.invoked.contains a) = true := by
            intro newEx h
            rw [List.all_eq_true] at h ⊢
            intro a ha
            have := h a ha
            simp at this ⊢
            exact this.1
          cases hso : so r.agent with
          | error err2 =>
            obtain ⟨st', s', heq, newEx, hex, hlen, hall⟩ :=
              ih ⟨st.invoked ++ [r.agent], st.count + 1, st.executed ++ [r.agent]⟩
                (s ++ [.handoff r.agent] ++ [.agentStart r.agent] ++
                  [.agentComplete r.agent n false] ++ [.agentComplete r.agent 0 true])
            refine ⟨st', s', ?_, r.agent :: newEx, ?_, ?_, ?_⟩
            · rw [referralLoopM, if_neg h1, if_neg (by simpa using hb)]
              simp only [M_bind_apply, M_emit_apply, hao, hso]
              exact heq
            · rw [hex]; simp
            · simpa using Nat.succ_le_succ hlen
            · rw [List.all_cons, hbtrue, Bool.true_and]
              exact weaken newEx hall
          | ok t =>
            obtain ⟨st', s', heq, newEx, hex, hlen, hall⟩ :=
              ih ⟨st.invoked ++ [r.agent], st.count + 1, st.executed ++ [r.agent]⟩
                (s ++ [.handoff r.agent] ++ [.agentStart r.agent] ++
                  [.agentComplete r.agent n false] ++ [.autoReferralResponse r.agent t])
            refine ⟨st', s', ?_, r.agent :: newEx, ?_, ?_, ?_⟩
            · rw [referralLoopM, if_neg h1, if_neg (by simpa using hb)]
              simp only [M_bind_apply, M_emit_apply, hao, hso]
              exact heq
            · rw [hex]; simp
            · simpa using Nat.succ_le_succ hlen
            · rw [List.all_cons, hbtrue, Bool.true_and]
              exact weaken newEx hall

/-- C3: for every turn, the cross-referral pass never invokes a capability
already in the turn's invoked set — even when the adjacency map lists it —
and executes at most `MAX_AUTO_REFERRALS = 1` referral invocations. -/
theorem cross_referral_respects_invoked_and_budget
    (primary invoked₀ : List String) (refEval : String → Except String Json)
    (ao : String → Except String Nat) (so : String → Except String String)
    (s : List Event) :
    match referralLoopM MAX_AUTO_REFERRALS ao so
        (get_cross_referral_candidates primary invoked₀ refEval MAX_AUTO_REFERRALS)
        ⟨invoked₀, 0, []⟩ s with
    | (.ok st, _) =>
        st.executed.all (fun a => !invoked₀.contains a) = true ∧
        st.executed.length ≤ MAX_AUTO_REFERRALS
    | (.error _, _) => False := by
  obtain ⟨st', s', heq, newEx, hex, hlen, hall⟩ :=
    referralLoopM_props MAX_AUTO_REFERRALS ao so
      (get_cross_referral_candidates primary invoked₀ refEval MAX_AUTO_REFERRALS)
      ⟨invoked₀, 0, []⟩ s
  rw [heq]
  have hex' : st'.executed = newEx := by simpa using hex
  refine ⟨?_, ?_⟩
  · rw [hex']; exact hall
  · rw [hex']
    refine le_trans hlen ?_
    simp only [get_cross_referral_candidates]
    exact List.length_take_le _ _

/-- C4 counterexample: in the trade-intercept fan-out for a concrete buy
order, at least two capability sub-calls run in the same gathered group and
receive the very same state object — not a fresh per-call copy. -/
theorem intercept_fanout_shares_state_counterexample :
    2 ≤ ((select_agents ctPortfolio 1 "AAPL" "buy").filter
      (fun a => INTERCEPT_AGENT_KEYS.contains a)).length ∧
    (interceptFanout ((select_agents ctPortfolio 1 "AAPL" "buy").filter
      (fun a => INTERCEPT_AGENT_KEYS.contains a)) 0).1.get? 0 = some 0 ∧
    (interceptFanout ((select_agents ctPortfolio 1 "AAPL" "buy").filter
      (fun a => INTERCEPT_AGENT_KEYS.contains a)) 0).1.get? 1 = some 0 := by
  decide

theorem perCallFanout_eq (agents : List String) (n : Nat) :
    perCallFanout agents n = (List.range' n agents.length, n + agents.length) := by
  induction agents generalizing n with
  | nil => simp [perCallFanout]
  | cons a rest ih =>
    simp [perCallFanout, allocState, ih, List.range'_succ]
    omega

/-- C4 amended: the chat/proactive/advisor/what-if fan-outs allocate a
fresh, pairwise-distinct state object per sub-call; the trade-intercept
fan-out instead passes one shared state object to all sub-calls, but its
`domain_findings` starts empty and `_call_agent` never mutates a state
whose `domain_findings` is empty (it builds a fresh dict), so no sub-call
of the intercept fan-out ever observes a sibling's mutation. -/
theorem fanout_isolation_amended :
    (∀ (agents : List String) (n : Nat), ((perCallFanout agents n).1).Nodup) ∧
    (∀ (dk : String) (fs : List Finding) (st : GraphStateV),
      st.domain_findings = [] → (call_agent_state dk fs st).1 = st) ∧
    (∀ (agentFindings : String → List Finding) (domainKeyOf : String → String)
        (agents : List String),
      interceptSharedRun agentFindings domainKeyOf agents build_state = build_state) := by
  have hcall : ∀ (dk : String) (fs : List Finding) (st : GraphStateV),
      st.domain_findings = [] → (call_agent_state dk fs st).1 = st := by
    intro dk fs st h
    simp [call_agent_state, h]
  refine ⟨?_, hcall, ?_⟩
  · intro agents n
    rw [perCallFanout_eq]
    show (List.range' n agents.length).Nodup
    exact List.nodup_range' n agents.length
  · intro agentFindings domainKeyOf agents
    induction agents with
    | nil => rfl
    | cons a rest ih =>
      show interceptSharedRun agentFindings domainKeyOf rest
        (call_agent_state (domainKeyOf a) (agentFindings a) build_state).1 = build_state
      rw [hcall (domainKeyOf a) (agentFindings a) build_state rfl]
      exact ih

/-- Witness for C4's amended theorem: a concrete empty-findings state is
left untouched by `_call_agent`. -/
theorem fanout_isolation_amended_witness :
    (call_agent_state "tax" [exValid "a" 1] ⟨[]⟩).1 = (⟨[]⟩ : GraphStateV) :=
  fanout_isolation_amended.2.1 "tax" [exValid "a" 1] ⟨[]⟩ rfl

/-- C2 counterexample: on one agent result with two equally-titled valid
findings, the advisor-report merge keeps both (no dedup) while the Finding
Validator/Ranker keeps only the first — the paths do not produce the same
list. -/
theorem advisor_path_differs_from_validator_ranker :
    ¬ ((advisorMerge ctResults).map findingProj =
       (synthesis_node (mergeResults (ctResults.map Prod.snd))).map findingProj) := by
  decide

theorem sortDescBy_map_proj (l : List Finding) :
    (sortDescBy findingImpact l).map findingProj =
      sortDescBy projImpact (l.map findingProj) :=
  List.map_insertionSort _ _ _ _ (fun _ _ _ _ => Iff.rfl)

theorem projOverSource (lab : String) (dfs : List (String × List Finding)) :
    ((dfs.flatMap (fun q => q.2.map (setSource lab))).map findingProj) =
      ((dfs.flatMap (fun q => q.2)).map findingProj) := by
  induction dfs with
  | nil => rfl
  | cons q qrest ih =>
    simp only [List.flatMap_cons, List.map_append, ih, List.map_map]
    rfl

theorem flattenWithSource_proj
    (rs : List (String × Except String (List (String × List Finding)))) :
    (flattenWithSource rs).map findingProj =
      (whatifCollect (rs.map Prod.snd)).map findingProj := by
  induction rs with
  | nil => rfl
  | cons p rest ih =>
    obtain ⟨lab, outcome⟩ := p
    cases outcome with
    | error e => simpa [flattenWithSource, whatifCollect] using ih
    | ok dfs =>
      simp only [flattenWithSource, whatifCollect, List.map_cons, List.flatMap_cons,
        List.map_append] at ih ⊢
      rw [projOverSource, ih]

/-- C2 amended: the advisor report, proactive greeting and what-if paths do
not reuse the Finding Validator/Ranker — they skip validation and
deduplication (what-if skips even the ranking) — so they only agree with
the Validator/Ranker on inputs whose findings are all valid with pairwise
distinct normalized titles; the greeting is the first three entries of the
advisor ranking. -/
theorem nonchat_merge_paths_amended
    (rs : List (String × Except String (List (String × List Finding))))
    (hvalid : (whatifCollect (rs.map Prod.snd)).all is_valid_finding = true)
    (hkeys : ((whatifCollect (rs.map Prod.snd)).map titleKey).Nodup) :
    (advisorMerge rs).map findingProj =
      (mergeRank (whatifCollect (rs.map Prod.snd))).map findingProj ∧
    proactiveTopFindings rs = (advisorMerge rs).take 3 := by
  constructor
  · have hW : (whatifCollect (rs.map Prod.snd)).filter is_valid_finding =
        whatifCollect (rs.map Prod.snd) :=
      List.filter_eq_self.mpr (fun a ha => List.all_eq_true.mp hvalid a ha)
    have hpair : (whatifCollect (rs.map Prod.snd)).Pairwise
        (fun a b => titleKey a ≠ titleKey b) := by
      rw [List.Nodup, List.pairwise_map] at hkeys
      exact hkeys
    calc (advisorMerge rs).map findingProj
        = sortDescBy projImpact ((flattenWithSource rs).map findingProj) :=
          sortDescBy_map_proj _
      _ = sortDescBy projImpact ((whatifCollect (rs.map Prod.snd)).map findingProj) := by
          rw [flattenWithSource_proj]
      _ = (sortDescBy findingImpact (whatifCollect (rs.map Prod.snd))).map findingProj :=
          (sortDescBy_map_proj _).symm
      _ = (mergeRank (whatifCollect (rs.map Prod.snd))).map findingProj := by
          rw [mergeRank_eq, hW, dedupByTitle_eq_self _ hpair]
  · rfl

theorem pyRound_intCast (n : Int) : pyRound ((n : Int) : ℚ) = n := by
  have hf : ((n : Int) : ℚ).floor = n := by
    rw [Rat.floor_def']
    simp
  unfold pyRound
  rw [hf]
  norm_num

theorem roundTo_intCast (d : Nat) (n : Int) : roundTo d ((n : Int) : ℚ) = n := by
  unfold roundTo
  have h1 : ((n : Int) : ℚ) * ((10 ^ d : Nat) : ℚ) = (((n * 10 ^ d : Int)) : ℚ) := by
    push_cast; ring
  rw [h1, pyRound_intCast]
  have h2 : (((10 ^ d : Nat)) : ℚ) ≠ 0 := by positivity
  push_cast
  field_simp

theorem deltaEntryFor_improved (b m : Option WFinding) (t : String)
    (h : impactOf m - impactOf b ≥ 1/100) :
    (deltaEntryFor b m t).direction = "improved" := by
  have hpos : (0 : ℚ) < impactOf m - impactOf b := lt_of_lt_of_le (by norm_num) h
  simp only [deltaEntryFor]
  rw [if_neg (by rw [abs_of_pos hpos]; exact not_lt.mpr h), if_pos hpos]

/-- C10: on the concrete scenario — baseline finding X with impact 100,
modified finding X with impact 150 — the what-if delta comparison yields a
single entry with delta 50 and direction "improved"; and in general any
title whose modified impact exceeds its baseline impact by at least 0.01
is directed "improved". -/
theorem whatif_delta_scenario_and_direction :
    compute_whatif_delta [⟨"X", some 100⟩] [⟨"X", some 150⟩] =
      [{ title := "X"
         baseline_dollar_impact := 100
         modified_dollar_impact := 150
         delta_dollar_impact := 50
         delta_pct := 50
         direction := "improved"
         present_in := "both" }] ∧
    (∀ (b m : Option WFinding) (t : String),
      impactOf m - impactOf b ≥ 1/100 → (deltaEntryFor b m t).direction = "improved") := by
  constructor
  · have hentry : deltaEntryFor (some ⟨"X", some 100⟩) (some ⟨"X", some 150⟩) "X" =
        { title := "X"
          baseline_dollar_impact := 100
          modified_dollar_impact := 150
          delta_dollar_impact := 50
          delta_pct := 50
          direction := "improved"
          present_in := "both" } := by
      simp only [deltaEntryFor, impactOf, Option.getD, DeltaEntry.mk.injEq,
        Option.isSome_some, Bool.and_self, if_true, true_and, and_true]
      refine ⟨?_, ?_, ?_, ?_, ?_⟩
      · rw [show (100 : ℚ) = ((100 : Int) : ℚ) by norm_num, roundTo_intCast]
      · rw [show (150 : ℚ) = ((150 : Int) : ℚ) by norm_num, roundTo_intCast]
      · rw [show (150 : ℚ) - 100 = ((50 : Int) : ℚ) by norm_num, roundTo_intCast]
        norm_num
      · rw [if_neg (by norm_num : ¬ (100 : ℚ) = 0),
          show (150 : ℚ) - 100 = (50 : ℚ) by norm_num,
          show (50 : ℚ) / 100 * 100 = ((50 : Int) : ℚ) by norm_num, roundTo_intCast]
        norm_num
      · rw [if_neg (by rw [show (150 : ℚ) - 100 = (50 : ℚ) by norm_num]; norm_num),
          if_pos (by norm_num : (150 : ℚ) - 100 > 0)]
    show sortDescBy (fun d => |d.delta_dollar_impact|)
      ((dedupStr (["X"] ++ ["X"])).map
        (fun t => deltaEntryFor (lastWithTitle [⟨"X", some 100⟩] t)
          (lastWithTitle [⟨"X", some 150⟩] t) t)) = _
    rw [show dedupStr (["X"] ++ ["X"]) = ["X"] from rfl]
    rw [List.map_singleton,
      show lastWithTitle [(⟨"X", some 100⟩ : WFinding)] "X" = some ⟨"X", some 100⟩ from rfl,
      show lastWithTitle [(⟨"X", some 150⟩ : WFinding)] "X" = some ⟨"X", some 150⟩ from rfl,
      hentry]
    rfl
  · exact deltaEntryFor_improved

/-- Witness for C10's general direction rule at concrete impacts 100 and
150. -/
theorem whatif_delta_direction_witness :
    (deltaEntryFor (some ⟨"X", some 100⟩) (some ⟨"X", some 150⟩) "X").direction =
      "improved" :=
  whatif_delta_scenario_and_direction.2 (some ⟨"X", some 100⟩) (some ⟨"X", some 150⟩) "X"
    (by norm_num [impactOf])

/-- Witness for C2's amended theorem at a concrete duplicate-free valid
input. -/
theorem nonchat_merge_paths_amended_witness :
    (advisorMerge [("allocation", .ok [("allocation", [exValid "a" 10, exValid "b" 20])])]).map
        findingProj =
      (mergeRank (whatifCollect
        ([("allocation",
            (.ok [("allocation", [exValid "a" 10, exValid "b" 20])] :
              Except String (List (String × List Finding))))].map Prod.snd))).map
        findingProj :=
  (nonchat_merge_paths_amended
    [("allocation", .ok [("allocation", [exValid "a" 10, exValid "b" 20])])]
    (by decide) (by decide)).1

theorem nt_pure {α : Type} (a : α) : NTFrag (pure a : M α) :=
  fun s => ⟨[], by simp [M_pure_apply], rfl⟩

theorem nt_call {α : Type} (o : Except String α) : NTFrag (call o) :=
  fun s => ⟨[], by simp [M_call_apply], rfl⟩

theorem nt_emit {e : Event} (h : isTermEv e = false) : NTFrag (emit e) :=
  fun s => ⟨[e], rfl, by simp [h]⟩

theorem nt_bind {α β : Type} {x : M α} {f : α → M β}
    (hx : NTFrag x) (hf : ∀ a, NTFrag (f a)) : NTFrag (x >>= f) := by
  intro s
  obtain ⟨e1, h1, h1'⟩ := hx s
  cases hx2 : x s with
  | mk res s1 =>
    have hs1 : s1 = s ++ e1 := by rw [← h1, hx2]
    cases res with
    | ok a =>
      obtain ⟨e2, h2, h2'⟩ := hf a s1
      refine ⟨e1 ++ e2, ?_, ?_⟩
      · simp only [M_bind_apply, hx2]
        rw [h2, hs1, List.append_assoc]
      · simp [List.all_append, h1', h2']
    | error err =>
      refine ⟨e1, ?_, h1'⟩
      simp only [M_bind_apply, hx2]
      exact hs1

theorem nt_ite {α : Type} {c : Prop} [Decidable c] {t e : M α}
    (ht : NTFrag t) (he : NTFrag e) : NTFrag (if c then t else e) := by
  by_cases h : c
  · simpa [h] using ht
  · simpa [h] using he

theorem good_bind_nt {α β : Type} {d : Event} {x : M α} {f : α → M β}
    (hx : NTFrag x) (hf : ∀ a, GoodTail d (f a)) : GoodTail d (x >>= f) := by
  intro s
  obtain ⟨e1, h1, h1'⟩ := hx s
  have h1noerr : e1.all (fun e => !isErrorEv e) = true := by
    rw [List.all_eq_true] at h1' ⊢
    intro a ha
    have := h1' a ha
    cases a <;> simp_all [isTermEv, isErrorEv]
  cases hx2 : x s with
  | mk res s1 =>
    have hs1 : s1 = s ++ e1 := by rw [← h1, hx2]
    cases res with
    | ok a =>
      obtain ⟨e2, h2, h2', h2d⟩ := hf a s1
      refine ⟨e1 ++ e2, ?_, ?_, ?_⟩
      · simp only [M_bind_apply, hx2]
        rw [h2, hs1, List.append_assoc]
      · simp [List.all_append, h1noerr, h2']
      · intro hok
        simp only [M_bind_apply, hx2] at hok
        have hlast := h2d hok
        rw [List.getLast?_append, hlast]
        rfl
    | error err =>
      refine ⟨e1, ?_, h1noerr, ?_⟩
      · simp only [M_bind_apply, hx2]
        exact hs1
      · intro hok
        simp only [M_bind_apply, hx2] at hok
        cases hok

theorem good_ite {α : Type} {d : Event} {c : Prop} [Decidable c] {t e : M α}
    (ht : GoodTail d t) (he : GoodTail d e) : GoodTail d (if c then t else e) := by
  by_cases h : c
  · simpa [h] using ht
  · simpa [h] using he

/-- A `yield done` followed by a possibly-raising call (the direct branch's
tail, `routes.py` lines 807-809). -/
theorem good_emit_then_call {α : Type} (d : Event) (o : Except String α)
    (hd : isErrorEv d = false) :
    GoodTail d (emit d >>= fun _ => call o >>= fun _ => pure ()) := by
  intro s
  refine ⟨[d], ?_, by simp [hd], fun _ => rfl⟩
  cases o <;> rfl

/-- A possibly-raising call followed by `yield done` (the agentic branch's
tail, `routes.py` lines 908-909). -/
theorem good_call_then_emit {α : Type} (d : Event) (o : Except String α)
    (hd : isErrorEv d = false) :
    GoodTail d (call o >>= fun _ => emit d) := by
  intro s
  cases o with
  | ok a => exact ⟨[d], rfl, by simp [hd], fun _ => rfl⟩
  | error e =>
    refine ⟨[], by simp [M_bind_apply, M_call_apply, M_emit_apply], rfl, ?_⟩
    intro hok
    cases hok

theorem nt_webSegment (routing : RoutingDecision)
    (wo : Except String (List SearchResult)) : NTFrag (webSegment routing wo) := by
  unfold webSegment
  refine nt_ite ?_ (nt_pure _)
  refine nt_bind (nt_emit rfl) (fun _ => ?_)
  cases wo with
  | ok rs => exact nt_bind (nt_emit rfl) (fun _ => nt_pure _)
  | error e => exact nt_bind (nt_emit rfl) (fun _ => nt_pure _)

theorem nt_emitStartHandoffs (agents : List String) : NTFrag (emitStartHandoffs agents) := by
  induction agents with
  | nil => exact nt_pure ()
  | cons d rest ih =>
    exact nt_bind (nt_emit rfl) (fun _ => nt_bind (nt_emit rfl) (fun _ => ih))

theorem nt_emitAgentCompletes (ao : String → Except String Nat) (agents : List String) :
    NTFrag (emitAgentCompletes ao agents) := by
  induction agents with
  | nil => exact nt_pure ()
  | cons d rest ih =>
    show NTFrag ((match ao d with
      | .error _ => emit (.agentComplete d 0 true)
      | .ok n => emit (.agentComplete d n false)) >>= fun _ => emitAgentCompletes ao rest)
    refine nt_bind ?_ (fun _ => ih)
    cases ao d with
    | error e => exact nt_emit rfl
    | ok n => exact nt_emit rfl

theorem nt_referralLoopM (maxR : Nat) (ao : String → Except String Nat)
    (so : String → Except String String) (rs : List Referral) :
    ∀ st, NTFrag (referralLoopM maxR ao so rs st) := by
  induction rs with
  | nil => intro st; exact nt_pure st
  | cons r rs ih =>
    intro st
    rw [referralLoopM]
    refine nt_ite (nt_pure st) (nt_ite (ih st) ?_)
    refine nt_bind (nt_emit rfl) (fun _ => nt_bind (nt_emit rfl) (fun _ => ?_))
    cases ao r.agent with
    | error e => exact nt_bind (nt_emit rfl) (fun _ => ih _)
    | ok n =>
      refine nt_bind (nt_emit rfl) (fun _ => ?_)
      cases so r.agent with
      | error e2 => exact nt_bind (nt_emit rfl) (fun _ => ih _)
      | ok t => exact nt_bind (nt_emit rfl) (fun _ => ih _)

theorem nt_emitSourcesIf (searchResults : List SearchResult) :
    NTFrag (emitSourcesIf searchResults) := by
  unfold emitSourcesIf
  exact nt_ite (nt_emit rfl) (nt_pure _)

theorem nt_directSynth (o : Oracles) (searchResults : List SearchResult)
    (direct0 : String) : NTFrag (directSynth o searchResults direct0) := by
  unfold directSynth
  exact nt_ite (nt_call _) (nt_ite (nt_call _) (nt_pure _))

theorem good_directBranch (o : Oracles) (routing : RoutingDecision)
    (searchResults : List SearchResult) :
    GoodTail (.done o.sessionId) (directBranch o routing searchResults) := by
  unfold directBranch
  refine good_bind_nt (nt_directSynth _ _ _) (fun direct => ?_)
  refine good_bind_nt (nt_emit rfl) (fun _ => ?_)
  refine good_bind_nt (nt_emitSourcesIf _) (fun _ => ?_)
  refine good_bind_nt (nt_referralLoopM _ _ _ _ _) (fun _ => ?_)
  refine good_bind_nt (nt_call _) (fun chips => ?_)
  refine good_bind_nt (nt_emit rfl) (fun _ => ?_)
  exact good_emit_then_call _ _ rfl

theorem good_agenticBranch (o : Oracles) (routing : RoutingDecision)
    (searchResults : List SearchResult) :
    GoodTail (.done o.sessionId) (agenticBranch o routing searchResults) := by
  unfold agenticBranch
  refine good_bind_nt (nt_emitStartHandoffs _) (fun _ => ?_)
  refine good_bind_nt (nt_emitAgentCompletes _ _) (fun _ => ?_)
  refine good_bind_nt (nt_call _) (fun t => ?_)
  refine good_bind_nt (nt_emit rfl) (fun _ => ?_)
  refine good_bind_nt (nt_emitSourcesIf _) (fun _ => ?_)
  refine good_bind_nt (nt_referralLoopM _ _ _ _ _) (fun _ => ?_)
  refine good_bind_nt (nt_call _) (fun chips => ?_)
  refine good_bind_nt (nt_emit rfl) (fun _ => ?_)
  exact good_call_then_emit _ _ rfl

theorem good_chatBody (o : Oracles) : GoodTail (.done o.sessionId) (chatBody o) := by
  unfold chatBody
  refine good_bind_nt (nt_call _) (fun _ => ?_)
  refine good_bind_nt (nt_call _) (fun _ => ?_)
  refine good_bind_nt (nt_emit rfl) (fun _ => ?_)
  refine good_bind_nt (nt_webSegment _ _) (fun searchResults => ?_)
  exact good_ite (good_directBranch o _ _) (good_agenticBranch o _ _)

/-- C9: every chat turn's streamed event sequence ends with `done` or with
a single `error` event; error events occur only in final position, so the
stream is never silently truncated. -/
theorem chat_stream_terminates_with_done_or_error (o : Oracles) :
    isTermOpt (chatStream o).getLast? = true ∧
    (chatStream o).dropLast.all (fun e => !isErrorEv e) = true := by
  obtain ⟨ext, hext, hnoerr, hdone⟩ := good_chatBody o []
  unfold chatStream
  cases hres : chatBody o [] with
  | mk res evs =>
    have hevs : evs = ext := by
      rw [hres] at hext
      simpa using hext
    cases res with
    | ok u =>
      have hlast : ext.getLast? = some (.done o.sessionId) := by
        apply hdone
        rw [hres]
        rfl
      constructor
      · simp only [hevs, hlast, isTermOpt, isTermEv]
      · rw [hevs]
        rw [List.all_eq_true] at hnoerr ⊢
        intro x hx
        exact hnoerr x ((List.dropLast_sublist ext).subset hx)
    | error m =>
      constructor
      · rw [hevs, List.getLast?_append]
        rfl
      · rw [hevs]
        simp only [List.dropLast_concat]
        exact hnoerr

end WealthMind
